import Mathlib

/-!
Verification of the resolution and decoding engine of the `sol` chain-inspection
tool, as a shallow embedding in Lean.

The embedding covers:
* the transaction resolver of `src/transaction/mod.rs` (`parse_transaction`),
  in particular the account-list reconstruction for Legacy and V0 messages and
  the address-lookup-table expansion loop;
* the token-symbol resolution of `src/account/system.rs`
  (`get_symbol_for_token_account`) and of `src/account/token.rs`
  (`TokenProgramAccount::parse`, token22 branch);
* the token-account sort of `SystemAccount::parse` in `src/account/system.rs`;
* the balance renderer `display_balance` of `src/utils.rs`;
* the vote/non-vote classification of the block aggregator in
  `src/block/mod.rs`.

Network fetches are modelled as explicit environment functions
(`Nat -> Option _`); `none` is a failed fetch (RPC error or absent account).
A Rust panic (`unwrap`/out-of-bounds indexing) aborts the surrounding
inspection; a function that can panic is embedded with an `Option` result
where `none` is the panic.  Public keys are modelled as `Nat`; account data
blobs as `List Nat`.
-/

namespace Sol

/-! ### Account metas (solana-sdk `AccountMeta`) -/

/-- `solana_sdk::instruction::AccountMeta`. -/
structure AccountMeta where
  pubkey : Nat
  is_signer : Bool
  is_writable : Bool
  deriving Repr, DecidableEq

/-- `AccountMeta::new(pubkey, is_signer)`: a writable account meta. -/
def AccountMeta.new (pubkey : Nat) (signer : Bool) : AccountMeta :=
  ⟨pubkey, signer, true⟩

/-- `AccountMeta::new_readonly(pubkey, is_signer)`: a read-only account meta. -/
def AccountMeta.new_readonly (pubkey : Nat) (signer : Bool) : AccountMeta :=
  ⟨pubkey, signer, false⟩

/-! ### Versioned messages

The message types mirror the solana-sdk data carried by a decoded
`VersionedTransaction`: a header with the signer/read-only counts, the static
account keys, and (for V0) the address-table lookups. -/

/-- The message header: counts that determine the signer and writable ranges. -/
structure MessageHeader where
  num_required_signatures : Nat
  num_readonly_signed_accounts : Nat
  num_readonly_unsigned_accounts : Nat
  deriving Repr, DecidableEq

/-- A legacy message: header plus static account keys. -/
structure LegacyMessage where
  header : MessageHeader
  account_keys : List Nat
  deriving Repr, DecidableEq

/-- `Message::is_signer(i)` (solana-sdk): the first
`num_required_signatures` static accounts are signers. -/
def LegacyMessage.is_signer (m : LegacyMessage) (i : Nat) : Bool :=
  decide (i < m.header.num_required_signatures)

/-- `Message::is_writable(i)` (solana-sdk): writable iff inside the writable
signed range or the writable unsigned range declared by the header.  (The
sdk additionally demotes a handful of reserved builtin keys; the resolver
and the claims both refer to the same predicate, so it is embedded as the
header-range rule.) -/
def LegacyMessage.is_writable (m : LegacyMessage) (i : Nat) : Bool :=
  decide (i < m.header.num_required_signatures -
      m.header.num_readonly_signed_accounts) ||
    (decide (m.header.num_required_signatures ≤ i) &&
      decide (i < m.account_keys.length -
        m.header.num_readonly_unsigned_accounts))

/-- One `MessageAddressTableLookup` of a V0 message: the lookup table's
account key and the writable / read-only index lists into its address array. -/
structure MessageAddressTableLookup where
  account_key : Nat
  writable_indexes : List Nat
  readonly_indexes : List Nat
  deriving Repr, DecidableEq

/-- A V0 message: header, static account keys, address-table lookups. -/
structure V0Message where
  header : MessageHeader
  account_keys : List Nat
  address_table_lookups : List MessageAddressTableLookup
  deriving Repr, DecidableEq

/-- `VersionedMessage::is_signer(i)` for a V0 message. -/
def V0Message.is_signer (m : V0Message) (i : Nat) : Bool :=
  decide (i < m.header.num_required_signatures)

/-- `v0::Message::is_maybe_writable(i)` for a static account index:
the header's writable signed / writable unsigned ranges.  (The sdk
additionally demotes reserved keys; the resolver and the claims both refer
to the same predicate, so it is embedded as the header-range rule.) -/
def V0Message.is_maybe_writable (m : V0Message) (i : Nat) : Bool :=
  if m.header.num_required_signatures ≤ i then
    decide (i - m.header.num_required_signatures <
      (m.account_keys.length - m.header.num_required_signatures) -
        m.header.num_readonly_unsigned_accounts)
  else
    decide (i < m.header.num_required_signatures -
      m.header.num_readonly_signed_accounts)

/-- `VersionedMessage` (solana-sdk): Legacy or V0. -/
inductive VersionedMessage where
  | legacy : LegacyMessage → VersionedMessage
  | v0 : V0Message → VersionedMessage
  deriving Repr, DecidableEq

/-! ### `parse_transaction`: account-list reconstruction

`src/transaction/mod.rs`, lines 87-162.  The Legacy branch maps each static
key to an `AccountMeta` with the header flags.  The V0 branch starts from the
static list, then for each lookup fetches and deserializes the lookup table;
on success it appends the addresses at the writable indexes (writable,
non-signer) then at the read-only indexes (read-only, non-signer); on fetch
or deserialize failure it prints a notice and continues with the next lookup.
The table fetch plus `AddressLookupTable::deserialize` is modelled as one
environment function `fetchTable : Nat → Option (List Nat)` returning the
table's `addresses` array, `none` covering both failure modes.

`alt.addresses[idx as usize]` is an unchecked index: an out-of-range index
panics and aborts the inspection, embedded here as an `Option` result whose
`none` is the panic. -/

/-- The Legacy branch of `parse_transaction`: static accounts only, flags
from the header. -/
def legacyStaticAccounts (m : LegacyMessage) : List AccountMeta :=
  m.account_keys.enum.map fun p =>
    if m.is_writable p.1 then AccountMeta.new p.2 (m.is_signer p.1)
    else AccountMeta.new_readonly p.2 (m.is_signer p.1)

/-- The static part of the V0 branch of `parse_transaction`. -/
def v0StaticAccounts (m : V0Message) : List AccountMeta :=
  m.account_keys.enum.map fun p =>
    if m.is_maybe_writable p.1 then AccountMeta.new p.2 (m.is_signer p.1)
    else AccountMeta.new_readonly p.2 (m.is_signer p.1)

/-- One push loop over a fetched table's address array: the metas pushed for
one index list.  `none` is the panic of the unchecked indexing
`alt.addresses[idx as usize]` at the first out-of-range index. -/
def pushLookupAddresses {α : Type} (f : Nat → α) (addresses : List Nat) :
    List Nat → Option (List α)
  | [] => some []
  | idx :: rest =>
      match addresses[idx]?, pushLookupAddresses f addresses rest with
      | some a, some pushed => some (f a :: pushed)
      | _, _ => none

/-- The two push loops over one successfully fetched table: the metas pushed
for the writable indexes, then for the read-only indexes. -/
def expandLookup (addresses : List Nat) (lookup : MessageAddressTableLookup) :
    Option (List AccountMeta) :=
  match pushLookupAddresses (fun a => AccountMeta.new a false) addresses
          lookup.writable_indexes,
        pushLookupAddresses (fun a => AccountMeta.new_readonly a false)
          addresses lookup.readonly_indexes with
  | some writable, some readonly => some (writable ++ readonly)
  | _, _ => none

/-- One iteration of the lookup loop: fetch and deserialize the table; on
success push the expansion, on failure print a notice and keep the accounts
unchanged. -/
def lookupStep (fetchTable : Nat → Option (List Nat))
    (accounts : List AccountMeta) (lookup : MessageAddressTableLookup) :
    Option (List AccountMeta) :=
  match fetchTable lookup.account_key with
  | some addresses => (expandLookup addresses lookup).map (accounts ++ ·)
  | none => some accounts

/-- The `for lookup in lookups` loop of the V0 branch. -/
def lookupLoop (fetchTable : Nat → Option (List Nat))
    (accounts : List AccountMeta) :
    List MessageAddressTableLookup → Option (List AccountMeta)
  | [] => some accounts
  | lookup :: rest =>
      match lookupStep fetchTable accounts lookup with
      | some pushed => lookupLoop fetchTable pushed rest
      | none => none

/-- The V0 branch of `parse_transaction`: the static accounts followed by the
lookup loop.  A lookup whose fetch or deserialization fails is skipped; a
successful lookup appends its expansion; an out-of-range index panics. -/
def resolveV0Accounts (fetchTable : Nat → Option (List Nat)) (m : V0Message) :
    Option (List AccountMeta) :=
  lookupLoop fetchTable (v0StaticAccounts m) m.address_table_lookups

/-- The `match &message` of `parse_transaction` that builds the account list. -/
def parseTransactionAccounts (fetchTable : Nat → Option (List Nat)) :
    VersionedMessage → Option (List AccountMeta)
  | VersionedMessage.legacy m => some (legacyStaticAccounts m)
  | VersionedMessage.v0 m => resolveV0Accounts fetchTable m

/-- The expansion a single lookup contributes on the claim side: for a table
that fetches successfully, the addresses at the writable indexes (writable)
then at the read-only indexes (read-only); nothing for a failing table. -/
def lookupExpansion (fetchTable : Nat → Option (List Nat))
    (lookup : MessageAddressTableLookup) : List AccountMeta :=
  match fetchTable lookup.account_key with
  | some addresses =>
      lookup.writable_indexes.map
        (fun idx => AccountMeta.new (addresses.getD idx 0) false) ++
      lookup.readonly_indexes.map
        (fun idx => AccountMeta.new_readonly (addresses.getD idx 0) false)
  | none => []

/-- Validity of a V0 transaction against the lookup-table state: every index
of every lookup whose table fetches successfully is within that table's
address array. -/
def V0LookupsInRange (fetchTable : Nat → Option (List Nat)) (m : V0Message) :
    Prop :=
  ∀ lookup ∈ m.address_table_lookups, ∀ addresses,
    fetchTable lookup.account_key = some addresses →
      (∀ idx ∈ lookup.writable_indexes, idx < addresses.length) ∧
      (∀ idx ∈ lookup.readonly_indexes, idx < addresses.length)

/-! ### Token-account balances and symbol resolution

`src/account/token.rs` declares `TokenAccountBalance`; `src/account/system.rs`
reads and writes a `symbol` field on it (`a.symbol`,
`TokenAccountBalance { symbol, ..account.clone() }`), so the struct is
embedded with that field.  The external collaborators used by symbol
resolution are collected in a `SymbolEnv`:

* `from_str` — `Pubkey::from_str`;
* `find_pda` — `mpl_token_metadata::accounts::Metadata::find_pda(mint).0`,
  the deterministic program-derived metadata address;
* `get_account_data` — `client.get_account_data`, `none` is a failed fetch;
* `metadata_from_bytes` — `Metadata::from_bytes(data)` followed by taking
  the `symbol` field; `none` is a decode failure (the caller `unwrap`s it,
  so a decode failure panics);
* `unpack_mint` — `StateWithExtensions::<Mint>::unpack`; `none` is an unpack
  failure (again `unwrap`ed by the caller); `some` is an abstract handle to
  the unpacked mint state;
* `get_extension_symbol` — `get_extension_bytes::<TokenMetadata>` followed
  by `unpack_from_slice`, taking the `symbol` field when both succeed. -/

/-- `TokenAccountBalance` (summary projection used by the aggregator). -/
structure TokenAccountBalance where
  key : String
  balance : String
  mint : String
  program : String
  symbol : Option String
  deriving Repr, DecidableEq

/-- The external collaborators of symbol resolution. -/
structure SymbolEnv where
  from_str : String → Option Nat
  find_pda : Nat → Nat
  get_account_data : Nat → Option (List Nat)
  metadata_from_bytes : List Nat → Option String
  unpack_mint : List Nat → Option Nat
  get_extension_symbol : Nat → Option String

/-- `get_symbol_for_token_account` of `src/account/system.rs`, lines
127-170.  The result is the input balance with its `symbol` field replaced
by the resolved symbol; `none` is a panic:

* a failed `Pubkey::from_str` returns the input unchanged;
* on a successful metadata-record fetch, `Metadata::from_bytes(..).unwrap()`
  panics on decode failure, else the record's symbol wins;
* on a failed metadata-record fetch the symbol is so far `None` and the code
  falls through to the mint: `get_account_data(mint).unwrap()` panics on a
  failed fetch, `unpack(..).unwrap()` panics on an unpack failure, and
  otherwise the Token22 extension symbol is used if present. -/
def get_symbol_for_token_account (env : SymbolEnv)
    (account : TokenAccountBalance) : Option TokenAccountBalance :=
  match env.from_str account.mint with
  | none => some account
  | some mint_acc_key =>
    match env.get_account_data (env.find_pda mint_acc_key) with
    | some data =>
        match env.metadata_from_bytes data with
        | some sym => some { account with symbol := some sym }
        | none => none
    | none =>
        match env.get_account_data mint_acc_key with
        | none => none
        | some mint_account_data =>
            match env.unpack_mint mint_account_data with
            | none => none
            | some mint_account =>
                match env.get_extension_symbol mint_account with
                | some sym => some { account with symbol := some sym }
                | none => some { account with symbol := none }

/-- The symbol-resolution block of `TokenProgramAccount::parse` for a
token22 token account (`src/account/token.rs`, lines 62-84): the mint is
already fetched and unpacked (`mint_account`), the metadata-program record
is fetched first, and the inline extension is consulted only when that
yields no symbol.  The outer `Option` is the panic of
`Metadata::from_bytes(..).unwrap()`; the inner `Option` is the resolved
symbol. -/
def resolve_symbol_token22 (env : SymbolEnv) (mint_key mint_account : Nat) :
    Option (Option String) :=
  match env.get_account_data (env.find_pda mint_key) with
  | some data =>
      match env.metadata_from_bytes data with
      | some sym => some (some sym)
      | none => none
  | none =>
      match env.get_extension_symbol mint_account with
      | some sym => some (some sym)
      | none => some none

/-! ### The aggregator's token-account sort

`SystemAccount::parse` (`src/account/system.rs`, lines 66-72) sorts the
collected balances with `token_accounts.sort_by(comparator)`.  Rust's
`sort_by` is a stable sort; a stable sort by a total preorder is uniquely
determined by comparator and input, so it is embedded as the stable
`List.mergeSort` over the boolean preorder `a ≤ b ↔ comparator a b ≠ Greater`. -/

/-- The comparator closure passed to `sort_by`. -/
def tokenSortOrder (a b : TokenAccountBalance) : Ordering :=
  match a.symbol, b.symbol with
  | some _, none => Ordering.lt
  | none, some _ => Ordering.gt
  | some a_sym, some b_sym => compare a_sym b_sym
  | none, none => Ordering.eq

/-- The boolean preorder induced by the comparator. -/
def tokenLe (a b : TokenAccountBalance) : Bool :=
  !(tokenSortOrder a b == Ordering.gt)

/-- The `sort_by` call: a stable sort of the balances by the comparator. -/
def sortTokenAccounts (l : List TokenAccountBalance) :
    List TokenAccountBalance :=
  l.mergeSort tokenLe

/-- Default element for positional access to sorted balance lists. -/
def noAccount : TokenAccountBalance := ⟨"", "", "", "", none⟩

/-! ### Block aggregator: vote classification

The tally loop of `handler` in `src/block/mod.rs`, lines 45-73: each
transaction's decoded message is classified as a vote transaction iff it has
exactly one instruction and that instruction's target program
(`ixs[0].program_id(static_account_keys)`, i.e. the static key at the
instruction's `program_id_index`) is the vote program id; `vote` or
`nonvote` is incremented accordingly.  The vote program id is injected as a
parameter. -/

/-- A compiled instruction: its target program is named by an index into the
message's static account keys. -/
structure CompiledInstruction where
  program_id_index : Nat
  deriving Repr, DecidableEq

/-- The part of a decoded message the tally loop reads. -/
structure DecodedMessage where
  static_account_keys : List Nat
  instructions : List CompiledInstruction
  deriving Repr, DecidableEq

/-- `ix.program_id(keys)`: the static key at `program_id_index`. -/
def instructionProgramId (msg : DecodedMessage)
    (ix : CompiledInstruction) : Nat :=
  msg.static_account_keys.getD ix.program_id_index 0

/-- The classification test:
`ixs.len() == 1 && *ixs[0].program_id(keys) == vote::ID`. -/
def isVoteTransaction (voteProgramId : Nat) (msg : DecodedMessage) : Bool :=
  msg.instructions.length == 1 &&
    instructionProgramId msg (msg.instructions.headD ⟨0⟩) == voteProgramId

/-- The `vote` / `nonvote` counters accumulated over the block's
transactions. -/
def countVoteNonvote (voteProgramId : Nat) (txs : List DecodedMessage) :
    Nat × Nat :=
  txs.foldl
    (fun c tx =>
      if isVoteTransaction voteProgramId tx then (c.1 + 1, c.2)
      else (c.1, c.2 + 1))
    (0, 0)

/-! ### `display_balance` (src/utils.rs, lines 13-45)

Strings are embedded as `List Char`.  `u64::to_string` is embedded as the
big-endian decimal digit string of the number (fuel-based so that it is
kernel-evaluable; `digitCharsAux_eq` below ties it to `Nat.digits`). -/

/-- Little-endian decimal digit characters of `n`, with fuel (the fuel is
only an upper bound on the number of division steps). -/
def digitCharsAux : Nat → Nat → List Char
  | 0, _ => []
  | _ + 1, 0 => []
  | fuel + 1, n + 1 =>
      Nat.digitChar ((n + 1) % 10) :: digitCharsAux fuel ((n + 1) / 10)

/-- Big-endian decimal digit characters of `n`; empty for 0. -/
def digitChars (n : Nat) : List Char := (digitCharsAux n n).reverse

/-- Embedding of `u64::to_string`: the decimal digit string, "0" for 0. -/
def natToString (n : Nat) : List Char :=
  if n = 0 then ['0'] else digitChars n

/-- The comma-insertion loop of `display_balance`: walking the integer part
with a running index `i`, a comma precedes the character at `i` when
`i > 0 && (len - i) % 3 == 0`. -/
def insertCommasAux (len : Nat) : Nat → List Char → List Char
  | _, [] => []
  | i, ch :: rest =>
      (if 0 < i ∧ (len - i) % 3 = 0 then [',', ch] else [ch]) ++
        insertCommasAux len (i + 1) rest

/-- The comma-insertion loop started at index 0 over the whole string. -/
def insertCommas (s : List Char) : List Char :=
  insertCommasAux s.length 0 s

/-- `display_balance(atoms, decimals)`: when the digit string is longer than
`decimals`, split it at `len - decimals`, comma-group the integer part and
re-join with a '.'; otherwise prepend "0." and left-pad the digits with
zeros. -/
def display_balance (atoms : Nat) (decimals : Nat) : List Char :=
  if decimals < (natToString atoms).length then
    insertCommas
        ((natToString atoms).take ((natToString atoms).length - decimals)) ++
      '.' :: (natToString atoms).drop ((natToString atoms).length - decimals)
  else
    '0' :: '.' ::
      (List.replicate (decimals - (natToString atoms).length) '0' ++
        natToString atoms)

/-! ### The spec-side rendering for C7

Built from the claim's words, not from the code: the decimal value
`A / 10^D`, with comma thousands separators grouping the integer part every
three digits, and exactly `D` digits after the decimal point (so no decimal
point at all when `D = 0`). -/

/-- A comma precedes a digit exactly when the count of digits from it
through the end is a multiple of three — it starts one of the three-digit
groups counted from the right. -/
def commaEvery3 : List Char → List Char
  | [] => []
  | ch :: rest =>
      (if (rest.length + 1) % 3 = 0 then [',', ch] else [ch]) ++
        commaEvery3 rest

/-- Thousands grouping: no comma before the leading digit, then
`commaEvery3` on the rest. -/
def groupThousands : List Char → List Char
  | [] => []
  | ch :: rest => ch :: commaEvery3 rest

/-- The rendering the claim describes: grouped integer part of `A / 10^D`,
then (for `D ≥ 1`) a point and the value `A mod 10^D` written with exactly
`D` digits (zero-padded on the left). -/
def specBalanceRendering (amount decimals : Nat) : List Char :=
  if decimals = 0 then
    groupThousands (natToString (amount / 10 ^ decimals))
  else
    groupThousands (natToString (amount / 10 ^ decimals)) ++
      '.' ::
        (List.replicate
            (decimals - (digitChars (amount % 10 ^ decimals)).length) '0' ++
          digitChars (amount % 10 ^ decimals))

/-! ### Concrete inputs for witnesses -/

/-- A lookup-table environment: table `100` holds three addresses, every
other table key fails to fetch. -/
def fetchW : Nat → Option (List Nat) := fun key =>
  if key = 100 then some [7, 8, 9] else none

/-- A V0 message with two static keys, one resolvable lookup and one lookup
whose table fails to fetch. -/
def msgW : V0Message :=
  { header := ⟨1, 0, 1⟩
    account_keys := [10, 20]
    address_table_lookups := [⟨100, [0, 2], [1]⟩, ⟨200, [5], [6]⟩] }

/-- The account list `msgW` resolves to under `fetchW`. -/
def accW : List AccountMeta :=
  [⟨10, true, true⟩, ⟨20, false, false⟩,
    ⟨7, false, true⟩, ⟨9, false, true⟩, ⟨8, false, false⟩]

/-- A V0 message whose only lookup indexes past the end of table `100`. -/
def msgW9 : V0Message :=
  { header := ⟨1, 0, 0⟩
    account_keys := [10]
    address_table_lookups := [⟨100, [3], []⟩] }

/-- A legacy message with one signer and one read-only unsigned account. -/
def msgLegW : LegacyMessage :=
  { header := ⟨1, 0, 1⟩, account_keys := [10, 20, 30] }

/-- An environment in which every network fetch fails. -/
def envCex : SymbolEnv :=
  { from_str := fun _ => some 5
    find_pda := fun mint => mint + 1000
    get_account_data := fun _ => none
    metadata_from_bytes := fun _ => none
    unpack_mint := fun _ => none
    get_extension_symbol := fun _ => none }

/-- A token-account balance with mint string "5". -/
def accountCex : TokenAccountBalance :=
  { key := "key", balance := "1", mint := "5",
    program := "spl-token", symbol := none }

/-- An environment in which the metadata-record fetch fails but the mint
account (key 5) fetches and unpacks fine and carries no extension symbol. -/
def envW4 : SymbolEnv :=
  { from_str := fun s => if s = "5" then some 5 else none
    find_pda := fun mint => mint + 1000
    get_account_data := fun key => if key = 5 then some [1, 2] else none
    metadata_from_bytes := fun _ => none
    unpack_mint := fun data => if data = [1, 2] then some 7 else none
    get_extension_symbol := fun _ => none }

/-- An environment in which the metadata record of mint 5 (pda 1005)
fetches and decodes to symbol "MPL", and an extension symbol also exists. -/
def envW5 : SymbolEnv :=
  { from_str := fun _ => none
    find_pda := fun mint => mint + 1000
    get_account_data := fun key => if key = 1005 then some [3] else none
    metadata_from_bytes := fun data => if data = [3] then some "MPL" else none
    unpack_mint := fun _ => none
    get_extension_symbol := fun _ => some "EXT" }

/-- A balance with symbol "USDC". -/
def accUSDC : TokenAccountBalance :=
  { key := "k1", balance := "1", mint := "m1",
    program := "spl-token", symbol := some "USDC" }

/-- A balance with no symbol. -/
def accNoSym : TokenAccountBalance :=
  { key := "k2", balance := "2", mint := "m2",
    program := "spl-token", symbol := none }

/-- A balance with symbol "SOL". -/
def accSOL : TokenAccountBalance :=
  { key := "k3", balance := "3", mint := "m3",
    program := "spl-token", symbol := some "SOL" }

/-- The worked sort example of the spec: symbols "USDC", none, "SOL". -/
def listW6 : List TokenAccountBalance := [accUSDC, accNoSym, accSOL]

/-- A message with a single instruction targeting static key 66. -/
def voteMsgW : DecodedMessage :=
  { static_account_keys := [55, 66], instructions := [⟨1⟩] }

/-- A message with two instructions. -/
def nonVoteMsgW : DecodedMessage :=
  { static_account_keys := [55, 66], instructions := [⟨0⟩, ⟨1⟩] }

/-! ### Supporting lemmas: lookup expansion -/

theorem getElem?_eq_some_getD {l : List Nat} {idx : Nat} (h : idx < l.length) :
    l[idx]? = some (l.getD idx 0) := by
  simp [List.getD_eq_getElem?_getD, List.getElem?_eq_getElem h]

theorem pushLookupAddresses_eq {α : Type} (addresses : List Nat) (f : Nat → α) :
    ∀ (idxs : List Nat), (∀ idx ∈ idxs, idx < addresses.length) →
      pushLookupAddresses f addresses idxs =
        some (idxs.map fun idx => f (addresses.getD idx 0))
  | [], _ => rfl
  | idx :: rest, h => by
      have hidx : idx < addresses.length := h idx (List.mem_cons_self ..)
      have ih := pushLookupAddresses_eq addresses f rest
        (fun i hi => h i (List.mem_cons_of_mem _ hi))
      rw [pushLookupAddresses, getElem?_eq_some_getD hidx, ih]
      rfl

theorem pushLookupAddresses_inv {α : Type} (addresses : List Nat) (f : Nat → α) :
    ∀ (idxs : List Nat) (out : List α),
      pushLookupAddresses f addresses idxs = some out →
      (∀ idx ∈ idxs, idx < addresses.length) ∧
        out = idxs.map fun idx => f (addresses.getD idx 0)
  | [], out, h => by
      simp only [pushLookupAddresses, Option.some.injEq] at h
      exact ⟨by simp, by simp [← h]⟩
  | idx :: rest, out, h => by
      rw [pushLookupAddresses] at h
      cases haddr : addresses[idx]? with
      | none => simp [haddr] at h
      | some v =>
          have hidx : idx < addresses.length := by
            by_contra hc
            simp [List.getElem?_eq_none (Nat.le_of_not_lt hc)] at haddr
          cases hrest : pushLookupAddresses f addresses rest with
          | none => simp [haddr, hrest] at h
          | some out' =>
              obtain ⟨hr, rfl⟩ := pushLookupAddresses_inv addresses f rest out' hrest
              have hv : addresses.getD idx 0 = v := by
                simp [List.getD_eq_getElem?_getD, haddr]
              simp only [haddr, hrest, Option.some.injEq] at h
              subst h
              refine ⟨?_, by simp only [List.map_cons, hv]⟩
              intro i hi
              rcases List.mem_cons.mp hi with rfl | hi
              · exact hidx
              · exact hr i hi

theorem pushLookupAddresses_none {α : Type} (addresses : List Nat) (f : Nat → α) :
    ∀ (idxs : List Nat) (idx : Nat), idx ∈ idxs → addresses.length ≤ idx →
      pushLookupAddresses f addresses idxs = none
  | a :: rest, idx, hmem, hlen => by
      rw [pushLookupAddresses]
      rcases List.mem_cons.mp hmem with rfl | hmem
      · simp [List.getElem?_eq_none hlen]
      · rw [pushLookupAddresses_none addresses f rest idx hmem hlen]
        cases addresses[a]? <;> rfl

theorem expandLookup_eq (addresses : List Nat)
    (lookup : MessageAddressTableLookup)
    (hw : ∀ idx ∈ lookup.writable_indexes, idx < addresses.length)
    (hr : ∀ idx ∈ lookup.readonly_indexes, idx < addresses.length) :
    expandLookup addresses lookup = some (
      lookup.writable_indexes.map
        (fun idx => AccountMeta.new (addresses.getD idx 0) false) ++
      lookup.readonly_indexes.map
        (fun idx => AccountMeta.new_readonly (addresses.getD idx 0) false)) := by
  rw [expandLookup, pushLookupAddresses_eq _ _ _ hw,
    pushLookupAddresses_eq _ _ _ hr]

theorem expandLookup_signers (addresses : List Nat)
    (lookup : MessageAddressTableLookup) (out : List AccountMeta)
    (h : expandLookup addresses lookup = some out) :
    ∀ a ∈ out, a.is_signer = false := by
  rw [expandLookup] at h
  cases hwm : pushLookupAddresses (fun a => AccountMeta.new a false)
      addresses lookup.writable_indexes with
  | none => simp [hwm] at h
  | some ws =>
      cases hrm : pushLookupAddresses (fun a => AccountMeta.new_readonly a false)
          addresses lookup.readonly_indexes with
      | none => simp [hwm, hrm] at h
      | some rs =>
          obtain ⟨-, rfl⟩ := pushLookupAddresses_inv _ _ _ _ hwm
          obtain ⟨-, rfl⟩ := pushLookupAddresses_inv _ _ _ _ hrm
          simp only [hwm, hrm, Option.some.injEq] at h
          subst h
          intro a ha
          rcases List.mem_append.mp ha with ha | ha <;>
            · obtain ⟨i, -, rfl⟩ := List.mem_map.mp ha
              rfl

theorem expandLookup_none (addresses : List Nat)
    (lookup : MessageAddressTableLookup) (idx : Nat)
    (hmem : idx ∈ lookup.writable_indexes ∨ idx ∈ lookup.readonly_indexes)
    (hlen : addresses.length ≤ idx) :
    expandLookup addresses lookup = none := by
  rw [expandLookup]
  rcases hmem with hmem | hmem
  · rw [pushLookupAddresses_none _ _ _ _ hmem hlen]
  · rw [pushLookupAddresses_none _ _ _ _ hmem hlen]
    cases pushLookupAddresses (fun a => AccountMeta.new a false)
      addresses lookup.writable_indexes <;> rfl

/-! ### Supporting lemmas: the lookup loop -/

theorem lookupLoop_eq (fetchTable : Nat → Option (List Nat)) :
    ∀ (lookups : List MessageAddressTableLookup) (init : List AccountMeta),
      (∀ lookup ∈ lookups, ∀ addresses,
        fetchTable lookup.account_key = some addresses →
          (∀ idx ∈ lookup.writable_indexes, idx < addresses.length) ∧
          (∀ idx ∈ lookup.readonly_indexes, idx < addresses.length)) →
      lookupLoop fetchTable init lookups =
        some (init ++ lookups.flatMap (lookupExpansion fetchTable))
  | [], init, _ => by simp [lookupLoop]
  | lookup :: rest, init, h => by
      have hrest := fun l hl => h l (List.mem_cons_of_mem _ hl)
      cases hf : fetchTable lookup.account_key with
      | none =>
          simp [lookupLoop, lookupStep, hf, lookupExpansion,
            lookupLoop_eq fetchTable rest init hrest]
      | some addresses =>
          obtain ⟨hw, hr⟩ := h lookup (List.mem_cons_self ..) addresses hf
          simp [lookupLoop, lookupStep, hf, lookupExpansion,
            expandLookup_eq addresses lookup hw hr,
            lookupLoop_eq fetchTable rest _ hrest]

theorem lookupLoop_signers (fetchTable : Nat → Option (List Nat)) :
    ∀ (lookups : List MessageAddressTableLookup)
      (init out : List AccountMeta),
      lookupLoop fetchTable init lookups = some out →
      ∃ extra, out = init ++ extra ∧ ∀ a ∈ extra, a.is_signer = false
  | [], init, out, h => by
      simp only [lookupLoop, Option.some.injEq] at h
      exact ⟨[], by simp [← h], by simp⟩
  | lookup :: rest, init, out, h => by
      rw [lookupLoop, lookupStep] at h
      cases hf : fetchTable lookup.account_key with
      | none =>
          simp only [hf] at h
          exact lookupLoop_signers fetchTable rest init out h
      | some addresses =>
          simp only [hf] at h
          cases hexp : expandLookup addresses lookup with
          | none => simp [hexp] at h
          | some exp =>
              simp only [hexp, Option.map_some] at h
              obtain ⟨extra, rfl, hextra⟩ :=
                lookupLoop_signers fetchTable rest (init ++ exp) out h
              refine ⟨exp ++ extra, by simp, ?_⟩
              intro a ha
              rcases List.mem_append.mp ha with ha | ha
              · exact expandLookup_signers addresses lookup exp hexp a ha
              · exact hextra a ha

theorem lookupLoop_none (fetchTable : Nat → Option (List Nat)) :
    ∀ (lookups : List MessageAddressTableLookup)
      (lookup : MessageAddressTableLookup), lookup ∈ lookups →
      ∀ addresses, fetchTable lookup.account_key = some addresses →
      ∀ idx, (idx ∈ lookup.writable_indexes ∨ idx ∈ lookup.readonly_indexes) →
      addresses.length ≤ idx →
      ∀ init, lookupLoop fetchTable init lookups = none
  | a :: rest, lookup, hmem, addresses, hf, idx, hidx, hoob, init => by
      rw [lookupLoop]
      rcases List.mem_cons.mp hmem with rfl | hmem
      · rw [lookupStep]
        simp [hf, expandLookup_none addresses lookup idx hidx hoob]
      · cases hstep : lookupStep fetchTable init a with
        | none => rfl
        | some acc =>
            exact lookupLoop_none fetchTable rest lookup hmem
              addresses hf idx hidx hoob acc

theorem length_lookupExpansion (fetchTable : Nat → Option (List Nat))
    (lookup : MessageAddressTableLookup) :
    (lookupExpansion fetchTable lookup).length =
      if (fetchTable lookup.account_key).isSome then
        lookup.writable_indexes.length + lookup.readonly_indexes.length
      else 0 := by
  unfold lookupExpansion
  cases fetchTable lookup.account_key <;> simp

theorem length_flatMap_lookupExpansion (fetchTable : Nat → Option (List Nat)) :
    ∀ (lookups : List MessageAddressTableLookup),
      (lookups.flatMap (lookupExpansion fetchTable)).length =
        ((lookups.filter (fun l => (fetchTable l.account_key).isSome)).map
          (fun l =>
            l.writable_indexes.length + l.readonly_indexes.length)).sum
  | [] => rfl
  | lookup :: rest => by
      have ih := length_flatMap_lookupExpansion fetchTable rest
      rw [List.flatMap_cons, List.length_append, ih, List.filter_cons]
      cases hf : fetchTable lookup.account_key with
      | none => simp [lookupExpansion, hf]
      | some addresses => simp [lookupExpansion, hf]

theorem length_v0StaticAccounts (m : V0Message) :
    (v0StaticAccounts m).length = m.account_keys.length := by
  simp [v0StaticAccounts, List.enum]

theorem length_legacyStaticAccounts (m : LegacyMessage) :
    (legacyStaticAccounts m).length = m.account_keys.length := by
  simp [legacyStaticAccounts, List.enum]

/-! ### Claim theorems: transaction resolver -/

/-- **C1.** For every valid V0-message transaction (every index of every
successfully fetched lookup table in range), the resolved account list is the
static accounts in message order followed, for each lookup in message order
whose table fetches and deserializes successfully, by the addresses at its
writable indexes (writable) then at its read-only indexes (read-only), in
declared order; entries of a failing table are excluded without affecting
other tables' expansions; the length equals the static count plus the sum of
writable and read-only index counts over successfully resolved tables, and
is at least the static account count. -/
theorem v0_account_resolution (fetchTable : Nat → Option (List Nat))
    (m : V0Message) (hval : V0LookupsInRange fetchTable m) :
    resolveV0Accounts fetchTable m =
      some (v0StaticAccounts m ++
        m.address_table_lookups.flatMap (lookupExpansion fetchTable)) ∧
    (v0StaticAccounts m ++
        m.address_table_lookups.flatMap (lookupExpansion fetchTable)).length =
      m.account_keys.length +
        ((m.address_table_lookups.filter
            (fun l => (fetchTable l.account_key).isSome)).map
          (fun l =>
            l.writable_indexes.length + l.readonly_indexes.length)).sum ∧
    m.account_keys.length ≤
      (v0StaticAccounts m ++
        m.address_table_lookups.flatMap (lookupExpansion fetchTable)).length := by
  refine ⟨?_, ?_, ?_⟩
  · rw [resolveV0Accounts]
    exact lookupLoop_eq fetchTable _ _ hval
  · rw [List.length_append, length_v0StaticAccounts,
      length_flatMap_lookupExpansion]
  · rw [List.length_append, length_v0StaticAccounts]
    exact Nat.le_add_right _ _

/-- Witness for C1 at the concrete environment `fetchW` / message `msgW`. -/
theorem v0_account_resolution_witness :
    V0LookupsInRange fetchW msgW ∧
    resolveV0Accounts fetchW msgW =
      some (v0StaticAccounts msgW ++
        msgW.address_table_lookups.flatMap (lookupExpansion fetchW)) := by
  have hval : V0LookupsInRange fetchW msgW := by
    intro lookup hmem addresses hf
    simp only [msgW, List.mem_cons, List.not_mem_nil, or_false] at hmem
    rcases hmem with rfl | rfl
    · simp only [fetchW, if_pos, Option.some.injEq] at hf
      subst hf
      constructor <;> decide
    · simp [fetchW] at hf
  exact ⟨hval, (v0_account_resolution fetchW msgW hval).1⟩

/-- **C2.** For every Legacy-message transaction, the resolved account list
has exactly the static accounts: its length equals the static account count
and each entry's pubkey, is_signer and is_writable come from the message's
key list and header range rules. -/
theorem legacy_account_resolution (m : LegacyMessage) :
    (legacyStaticAccounts m).length = m.account_keys.length ∧
    ∀ i, i < m.account_keys.length →
      ((legacyStaticAccounts m).getD i (AccountMeta.new 0 false)).pubkey =
          m.account_keys.getD i 0 ∧
      ((legacyStaticAccounts m).getD i (AccountMeta.new 0 false)).is_signer =
          m.is_signer i ∧
      ((legacyStaticAccounts m).getD i (AccountMeta.new 0 false)).is_writable =
          m.is_writable i := by
  refine ⟨length_legacyStaticAccounts m, ?_⟩
  intro i hi
  have hlen : i < (legacyStaticAccounts m).length := by
    rw [length_legacyStaticAccounts]
    exact hi
  have hget : (legacyStaticAccounts m).getD i (AccountMeta.new 0 false) =
      (legacyStaticAccounts m)[i] := by
    simp [List.getD_eq_getElem?_getD, List.getElem?_eq_getElem hlen]
  have helem : (legacyStaticAccounts m)[i] =
      (if m.is_writable i then
        AccountMeta.new (m.account_keys[i]) (m.is_signer i)
      else
        AccountMeta.new_readonly (m.account_keys[i]) (m.is_signer i)) := by
    simp [legacyStaticAccounts, List.enum, List.getElem_enumFrom]
  have hkey : m.account_keys.getD i 0 = m.account_keys[i] := by
    simp [List.getD_eq_getElem?_getD, List.getElem?_eq_getElem hi]
  rw [hget, helem, hkey]
  cases hw : m.is_writable i <;>
    simp [AccountMeta.new, AccountMeta.new_readonly]

/-- Witness for C2 at the concrete message `msgLegW`, index 0. -/
theorem legacy_account_resolution_witness :
    0 < msgLegW.account_keys.length ∧
      (((legacyStaticAccounts msgLegW).getD 0 (AccountMeta.new 0 false)).pubkey =
          msgLegW.account_keys.getD 0 0 ∧
        ((legacyStaticAccounts msgLegW).getD 0
            (AccountMeta.new 0 false)).is_signer = msgLegW.is_signer 0 ∧
        ((legacyStaticAccounts msgLegW).getD 0
            (AccountMeta.new 0 false)).is_writable = msgLegW.is_writable 0) :=
  ⟨by decide, (legacy_account_resolution msgLegW).2 0 (by decide)⟩

/-- **C3.** Every account entry appended by address-lookup-table expansion —
everything past the static account count in a successfully resolved V0
account list — has `is_signer = false`. -/
theorem lookup_expanded_never_signer (fetchTable : Nat → Option (List Nat))
    (m : V0Message) (accounts : List AccountMeta)
    (h : resolveV0Accounts fetchTable m = some accounts) :
    ∀ a ∈ accounts.drop m.account_keys.length, a.is_signer = false := by
  rw [resolveV0Accounts] at h
  obtain ⟨extra, rfl, hextra⟩ := lookupLoop_signers fetchTable _ _ _ h
  rw [List.drop_left' (length_v0StaticAccounts m)]
  exact hextra

/-- Witness for C3 at the concrete environment `fetchW` / message `msgW`. -/
theorem lookup_expanded_never_signer_witness :
    resolveV0Accounts fetchW msgW = some accW ∧
    ∀ a ∈ accW.drop msgW.account_keys.length, a.is_signer = false :=
  ⟨by decide, lookup_expanded_never_signer fetchW msgW accW (by decide)⟩

/-- **C9.** If a lookup table fetches and deserializes successfully but one
of the lookup's writable or read-only indexes is out of range for the
table's address array, the unchecked indexing panics and the entire
resolution aborts (`none`) instead of skipping that lookup. -/
theorem v0_oob_index_panics (fetchTable : Nat → Option (List Nat))
    (m : V0Message) (lookup : MessageAddressTableLookup)
    (hmem : lookup ∈ m.address_table_lookups) (addresses : List Nat)
    (hf : fetchTable lookup.account_key = some addresses) (idx : Nat)
    (hidx : idx ∈ lookup.writable_indexes ∨ idx ∈ lookup.readonly_indexes)
    (hoob : addresses.length ≤ idx) :
    resolveV0Accounts fetchTable m = none := by
  rw [resolveV0Accounts]
  exact lookupLoop_none fetchTable _ lookup hmem addresses hf idx hidx hoob _

/-- Witness for C9: table 100 has three addresses, `msgW9`'s lookup asks for
index 3, and resolution aborts. -/
theorem v0_oob_index_panics_witness :
    ([7, 8, 9] : List Nat).length ≤ 3 ∧
      resolveV0Accounts fetchW msgW9 = none :=
  ⟨by decide, v0_oob_index_panics fetchW msgW9 ⟨100, [3], []⟩ (by decide)
    [7, 8, 9] (by decide) 3 (Or.inl (by decide)) (by decide)⟩

/-! ### Claim theorems: symbol resolution -/

/-- Counterexample for C4: in an environment where every fetch fails, the
metadata-record fetch failure falls through to the mint fetch, whose
`unwrap` panics — the aggregation aborts (`none`) instead of degrading the
account to "no symbol". -/
theorem get_symbol_fetch_failure_aborts :
    get_symbol_for_token_account envCex accountCex = none ∧
    get_symbol_for_token_account envCex accountCex ≠
      some { accountCex with symbol := none } := by
  constructor <;> decide

/-- **C4 (amended).** A fetch failure for the metadata-program record alone
degrades to "no symbol" without aborting, provided the fallback mint fetch
and unpack succeed (first conjunct); but a fetch failure for the mint
account itself on that fallback path panics and aborts the whole
aggregation (second conjunct). -/
theorem get_symbol_fetch_failure_behavior (env : SymbolEnv)
    (account : TokenAccountBalance) (mint_key : Nat)
    (hparse : env.from_str account.mint = some mint_key)
    (hmpl : env.get_account_data (env.find_pda mint_key) = none) :
    (∀ mint_data mint_account,
      env.get_account_data mint_key = some mint_data →
      env.unpack_mint mint_data = some mint_account →
      env.get_extension_symbol mint_account = none →
      get_symbol_for_token_account env account =
        some { account with symbol := none }) ∧
    (env.get_account_data mint_key = none →
      get_symbol_for_token_account env account = none) := by
  constructor
  · intro mint_data mint_account hd hm hext
    simp only [get_symbol_for_token_account, hparse, hmpl, hd, hm, hext]
  · intro hnone
    simp only [get_symbol_for_token_account, hparse, hmpl, hnone]

/-- Witness for the amended C4 at `envW4` / `accountCex`: the metadata
record is absent, the mint fetch succeeds, and the account degrades to no
symbol without aborting. -/
theorem get_symbol_fetch_failure_behavior_witness :
    envW4.from_str accountCex.mint = some 5 ∧
    envW4.get_account_data (envW4.find_pda 5) = none ∧
    get_symbol_for_token_account envW4 accountCex =
      some { accountCex with symbol := none } :=
  ⟨by decide, by decide,
    (get_symbol_fetch_failure_behavior envW4 accountCex 5 (by decide)
        (by decide)).1 [1, 2] 7 (by decide) (by decide) (by decide)⟩

/-- **C5.** Symbol resolution tries the token-metadata-program record
first — when the record fetches and decodes to a symbol, the result is that
symbol whatever the extension source holds (first conjunct, quantified over
the extension source); the inline Token22 extension block is consulted only
when the first source yields no symbol (second conjunct); if neither source
yields data the result is absence of a symbol, not an error (third
conjunct). -/
theorem symbol_source_order (env : SymbolEnv) (mint_key mint_account : Nat) :
    (∀ data sym g,
      env.get_account_data (env.find_pda mint_key) = some data →
      env.metadata_from_bytes data = some sym →
      resolve_symbol_token22 { env with get_extension_symbol := g }
        mint_key mint_account = some (some sym)) ∧
    (∀ sym, env.get_account_data (env.find_pda mint_key) = none →
      env.get_extension_symbol mint_account = some sym →
      resolve_symbol_token22 env mint_key mint_account = some (some sym)) ∧
    (env.get_account_data (env.find_pda mint_key) = none →
      env.get_extension_symbol mint_account = none →
      resolve_symbol_token22 env mint_key mint_account = some none) := by
  obtain ⟨fs, pda, gad, mfb, um, ges⟩ := env
  refine ⟨?_, ?_, ?_⟩ <;> intros <;> simp_all [resolve_symbol_token22]

/-- Witness for C5 at `envW5`: the metadata record wins, even with the
extension source replaced by a different symbol. -/
theorem symbol_source_order_witness :
    envW5.get_account_data (envW5.find_pda 5) = some [3] ∧
    envW5.metadata_from_bytes [3] = some "MPL" ∧
    resolve_symbol_token22
      { envW5 with get_extension_symbol := fun _ => some "EXT2" } 5 9 =
      some (some "MPL") :=
  ⟨by decide, by decide,
    (symbol_source_order envW5 5 9).1 [3] "MPL" (fun _ => some "EXT2")
      (by decide) (by decide)⟩

/-- **C10.** `get_symbol_for_token_account` returns a balance whose `key`,
`balance`, `mint` and `program` equal those of its input; only `symbol` may
differ. -/
theorem get_symbol_frame (env : SymbolEnv) (account out : TokenAccountBalance)
    (h : get_symbol_for_token_account env account = some out) :
    out.key = account.key ∧ out.balance = account.balance ∧
      out.mint = account.mint ∧ out.program = account.program := by
  unfold get_symbol_for_token_account at h
  repeat' split at h
  all_goals first
    | (cases h; exact ⟨rfl, rfl, rfl, rfl⟩)
    | (cases h)

/-! ### Supporting lemmas: the token-account sort -/

theorem string_le_of_compare_ne_gt {x y : String}
    (h : (compare x y == Ordering.gt) = false) : x ≤ y := by
  refine compare_le_iff_le.mp ?_
  intro hc
  rw [hc] at h
  exact absurd h (by decide)

theorem string_compare_ne_gt_of_le {x y : String} (h : x ≤ y) :
    (compare x y == Ordering.gt) = false := by
  have hne := compare_le_iff_le.mpr h
  cases hc : compare x y
  · rfl
  · rfl
  · exact absurd hc hne

theorem tokenLe_trans : ∀ (a b c : TokenAccountBalance),
    tokenLe a b → tokenLe b c → tokenLe a c := by
  intro a b c
  unfold tokenLe tokenSortOrder
  rcases a.symbol with _ | xa <;> rcases b.symbol with _ | yb <;>
    rcases c.symbol with _ | zc <;> intro h1 h2 <;>
    simp only [Bool.not_eq_true'] at h1 h2 ⊢
  all_goals first
    | rfl
    | exact absurd h1 (by decide)
    | exact absurd h2 (by decide)
    | exact string_compare_ne_gt_of_le
        (le_trans (string_le_of_compare_ne_gt h1)
          (string_le_of_compare_ne_gt h2))

theorem tokenLe_total : ∀ (a b : TokenAccountBalance),
    tokenLe a b || tokenLe b a := by
  intro a b
  unfold tokenLe tokenSortOrder
  rcases a.symbol with _ | xa <;> rcases b.symbol with _ | yb
  · rfl
  · rfl
  · rfl
  · rcases le_total xa yb with h | h
    · simp [string_compare_ne_gt_of_le h]
    · simp [string_compare_ne_gt_of_le h]

/-! ### Claim theorem: the token-account sort -/

/-- **C6.** The aggregator's sorted output places every account with a
resolved symbol before every account without one (first conjunct:
anything after a symbol-less entry is symbol-less), orders any two
symbol-bearing accounts by case-sensitive string comparison of their
symbols (second conjunct), and keeps the as-returned relative order of the
symbol-less accounts (third conjunct: filtering the symbol-less entries
commutes with the sort). -/
theorem token_sort_spec (l : List TokenAccountBalance) :
    (∀ i j, i < j → j < (sortTokenAccounts l).length →
      ((sortTokenAccounts l).getD i noAccount).symbol = none →
      ((sortTokenAccounts l).getD j noAccount).symbol = none) ∧
    (∀ i j x y, i < j → j < (sortTokenAccounts l).length →
      ((sortTokenAccounts l).getD i noAccount).symbol = some x →
      ((sortTokenAccounts l).getD j noAccount).symbol = some y →
      x ≤ y) ∧
    (sortTokenAccounts l).filter (fun a => a.symbol.isNone) =
      l.filter (fun a => a.symbol.isNone) := by
  have hpair : (sortTokenAccounts l).Pairwise (fun a b => tokenLe a b) :=
    List.sorted_mergeSort tokenLe_trans tokenLe_total l
  have hrel := List.pairwise_iff_getElem.mp hpair
  refine ⟨?_, ?_, ?_⟩
  · intro i j hij hj hsym
    have hi : i < (sortTokenAccounts l).length := lt_trans hij hj
    have hgdi : (sortTokenAccounts l).getD i noAccount =
        (sortTokenAccounts l)[i] := by
      simp [List.getD_eq_getElem?_getD, List.getElem?_eq_getElem hi]
    have hgdj : (sortTokenAccounts l).getD j noAccount =
        (sortTokenAccounts l)[j] := by
      simp [List.getD_eq_getElem?_getD, List.getElem?_eq_getElem hj]
    rw [hgdi] at hsym
    rw [hgdj]
    have hle := hrel i j hi hj hij
    cases hsj : ((sortTokenAccounts l)[j]).symbol with
    | none => rfl
    | some y =>
        exfalso
        simp only [tokenLe, tokenSortOrder, hsym, hsj] at hle
        exact absurd hle (by decide)
  · intro i j x y hij hj hx hy
    have hi : i < (sortTokenAccounts l).length := lt_trans hij hj
    have hgdi : (sortTokenAccounts l).getD i noAccount =
        (sortTokenAccounts l)[i] := by
      simp [List.getD_eq_getElem?_getD, List.getElem?_eq_getElem hi]
    have hgdj : (sortTokenAccounts l).getD j noAccount =
        (sortTokenAccounts l)[j] := by
      simp [List.getD_eq_getElem?_getD, List.getElem?_eq_getElem hj]
    rw [hgdi] at hx
    rw [hgdj] at hy
    have hle := hrel i j hi hj hij
    simp only [tokenLe, tokenSortOrder, hx, hy] at hle
    exact string_le_of_compare_ne_gt (by simpa using hle)
  · have hsubl : List.Sublist (l.filter (fun a => a.symbol.isNone)) l :=
      List.filter_sublist l
    have hpairf : (l.filter (fun a => a.symbol.isNone)).Pairwise
        (fun a b => tokenLe a b) := by
      apply List.pairwise_of_forall_mem_list
      intro a ha b hb
      have ha2 : a.symbol = none := by
        simpa [Option.isNone_iff_eq_none] using (List.mem_filter.mp ha).2
      have hb2 : b.symbol = none := by
        simpa [Option.isNone_iff_eq_none] using (List.mem_filter.mp hb).2
      simp only [tokenLe, tokenSortOrder, ha2, hb2, Bool.not_eq_true']
      decide
    have hsub2 : List.Sublist (l.filter (fun a => a.symbol.isNone))
        (sortTokenAccounts l) :=
      List.sublist_mergeSort tokenLe_trans tokenLe_total hpairf hsubl
    have hsub3 : List.Sublist (l.filter (fun a => a.symbol.isNone))
        ((sortTokenAccounts l).filter (fun a => a.symbol.isNone)) := by
      have hf := hsub2.filter (fun a => a.symbol.isNone)
      rwa [List.filter_eq_self.mpr
        (fun a ha => (List.mem_filter.mp ha).2)] at hf
    have hperm : List.Perm
        ((sortTokenAccounts l).filter (fun a => a.symbol.isNone))
        (l.filter (fun a => a.symbol.isNone)) :=
      (List.mergeSort_perm l tokenLe).filter _
    exact (hsub3.eq_of_length hperm.length_eq.symm).symm

/-- Witness for C6 at the spec's worked example `listW6`: the sort yields
SOL, USDC, then the symbol-less account; the theorem is applied at indexes
0 and 1. -/
theorem token_sort_spec_witness :
    (0 < 1 ∧ 1 < (sortTokenAccounts listW6).length ∧
      ((sortTokenAccounts listW6).getD 0 noAccount).symbol = some "SOL" ∧
      ((sortTokenAccounts listW6).getD 1 noAccount).symbol = some "USDC") ∧
    "SOL" ≤ "USDC" := by
  have hs : sortTokenAccounts listW6 = [accSOL, accUSDC, accNoSym] := by
    simp +decide [sortTokenAccounts, listW6, List.mergeSort, List.splitInTwo,
      List.splitAt_eq, List.merge, tokenLe, tokenSortOrder, accUSDC,
      accNoSym, accSOL]
  have h0 : (0 : Nat) < 1 := by decide
  have h1 : 1 < (sortTokenAccounts listW6).length := by rw [hs]; decide
  have hx : ((sortTokenAccounts listW6).getD 0 noAccount).symbol =
      some "SOL" := by rw [hs]; decide
  have hy : ((sortTokenAccounts listW6).getD 1 noAccount).symbol =
      some "USDC" := by rw [hs]; decide
  exact ⟨⟨h0, h1, hx, hy⟩,
    (token_sort_spec listW6).2.1 0 1 "SOL" "USDC" h0 h1 hx hy⟩

/-- Witness for C10 at `envW4` / `accountCex`. -/
theorem get_symbol_frame_witness :
    get_symbol_for_token_account envW4 accountCex =
      some { accountCex with symbol := none } ∧
    (({ accountCex with symbol := none } : TokenAccountBalance).key =
        accountCex.key ∧
      ({ accountCex with symbol := none } : TokenAccountBalance).balance =
        accountCex.balance ∧
      ({ accountCex with symbol := none } : TokenAccountBalance).mint =
        accountCex.mint ∧
      ({ accountCex with symbol := none } : TokenAccountBalance).program =
        accountCex.program) :=
  ⟨by decide,
    get_symbol_frame envW4 accountCex { accountCex with symbol := none }
      (by decide)⟩

/-! ### Claim theorem: block vote classification -/

theorem countVoteNonvote_foldl (voteProgramId : Nat) :
    ∀ (txs : List DecodedMessage) (v n : Nat),
      (txs.foldl
        (fun c tx =>
          if isVoteTransaction voteProgramId tx then (c.1 + 1, c.2)
          else (c.1, c.2 + 1))
        (v, n)).1 +
      (txs.foldl
        (fun c tx =>
          if isVoteTransaction voteProgramId tx then (c.1 + 1, c.2)
          else (c.1, c.2 + 1))
        (v, n)).2 = v + n + txs.length
  | [], v, n => by simp
  | tx :: rest, v, n => by
      rw [List.foldl_cons]
      cases hv : isVoteTransaction voteProgramId tx with
      | true =>
          rw [if_pos rfl]
          rw [countVoteNonvote_foldl voteProgramId rest (v + 1) n]
          simp only [List.length_cons]
          omega
      | false =>
          rw [if_neg (by decide)]
          rw [countVoteNonvote_foldl voteProgramId rest v (n + 1)]
          simp only [List.length_cons]
          omega

/-- **C8.** A transaction is classified as a vote transaction iff its
decoded message contains exactly one instruction and that instruction's
target program id is the vote program id (first conjunct); every other
transaction is counted as non-vote, and the vote count plus the non-vote
count equals the block's transaction count (second conjunct). -/
theorem vote_classification (voteProgramId : Nat)
    (txs : List DecodedMessage) :
    (∀ tx, isVoteTransaction voteProgramId tx = true ↔
      ∃ ix, tx.instructions = [ix] ∧
        instructionProgramId tx ix = voteProgramId) ∧
    (countVoteNonvote voteProgramId txs).1 +
      (countVoteNonvote voteProgramId txs).2 = txs.length := by
  constructor
  · intro tx
    constructor
    · intro h
      rw [isVoteTransaction, Bool.and_eq_true, beq_iff_eq, beq_iff_eq] at h
      obtain ⟨h1, h2⟩ := h
      obtain ⟨ix, hix⟩ := List.length_eq_one.mp h1
      refine ⟨ix, hix, ?_⟩
      rw [hix] at h2
      simpa using h2
    · rintro ⟨ix, hix, hpid⟩
      rw [isVoteTransaction, Bool.and_eq_true, beq_iff_eq, beq_iff_eq, hix]
      exact ⟨rfl, by simpa using hpid⟩
  · rw [countVoteNonvote, countVoteNonvote_foldl]
    simp

/-- Witness for C8: `voteMsgW` (one instruction, target 66) classifies as a
vote transaction for vote program 66, and the counts over a two-transaction
block sum to 2. -/
theorem vote_classification_witness :
    (voteMsgW.instructions = [⟨1⟩] ∧
      instructionProgramId voteMsgW ⟨1⟩ = 66) ∧
    isVoteTransaction 66 voteMsgW = true ∧
    (countVoteNonvote 66 [voteMsgW, nonVoteMsgW]).1 +
      (countVoteNonvote 66 [voteMsgW, nonVoteMsgW]).2 = 2 :=
  ⟨⟨by decide, by decide⟩,
    ((vote_classification 66 [voteMsgW, nonVoteMsgW]).1 voteMsgW).mpr
      ⟨⟨1⟩, by decide, by decide⟩,
    (vote_classification 66 [voteMsgW, nonVoteMsgW]).2⟩

/-! ### Supporting lemmas: digit strings -/

theorem digitCharsAux_eq : ∀ (fuel n : Nat), n ≤ fuel →
    digitCharsAux fuel n = (Nat.digits 10 n).map Nat.digitChar
  | 0, 0, _ => by simp [digitCharsAux]
  | 0, _ + 1, h => absurd h (by omega)
  | _ + 1, 0, _ => by simp [digitCharsAux]
  | fuel + 1, n + 1, h => by
      rw [digitCharsAux]
      have hdiv : (n + 1) / 10 ≤ fuel := by
        have := Nat.div_lt_self (Nat.succ_pos n) (by norm_num : 1 < 10)
        omega
      rw [digitCharsAux_eq fuel ((n + 1) / 10) hdiv]
      rw [Nat.digits_def' (by norm_num : (1 : Nat) < 10) (Nat.succ_pos n)]
      simp

theorem digitChars_eq (n : Nat) :
    digitChars n = ((Nat.digits 10 n).map Nat.digitChar).reverse := by
  rw [digitChars, digitCharsAux_eq n n (le_refl n)]

theorem length_digitChars (n : Nat) :
    (digitChars n).length = (Nat.digits 10 n).length := by
  rw [digitChars_eq]
  simp

theorem natToString_of_ne_zero {n : Nat} (hn : n ≠ 0) :
    natToString n = digitChars n := by
  rw [natToString, if_neg hn]

theorem length_natToString_of_ne_zero {n : Nat} (hn : n ≠ 0) :
    (natToString n).length = (Nat.digits 10 n).length := by
  rw [natToString_of_ne_zero hn, length_digitChars]

theorem length_natToString_pos (n : Nat) : 0 < (natToString n).length := by
  rcases Nat.eq_zero_or_pos n with rfl | hpos
  · simp [natToString]
  · rw [length_natToString_of_ne_zero (Nat.pos_iff_ne_zero.mp hpos)]
    simp [Nat.digits_ne_nil_iff_ne_zero, List.length_pos,
      Nat.pos_iff_ne_zero.mp hpos]

theorem lt_pow_length_natToString (n : Nat) :
    n < 10 ^ (natToString n).length := by
  rcases Nat.eq_zero_or_pos n with rfl | hpos
  · simp [natToString]
  · rw [length_natToString_of_ne_zero (Nat.pos_iff_ne_zero.mp hpos)]
    exact Nat.lt_base_pow_length_digits (by norm_num)

/-! ### Supporting lemmas: comma grouping -/

theorem insertCommasAux_eq_commaEvery3 :
    ∀ (s : List Char) (len i : Nat), 0 < i → len = i + s.length →
      insertCommasAux len i s = commaEvery3 s
  | [], _, _, _, _ => rfl
  | ch :: rest, len, i, hi, hlen => by
      rw [insertCommasAux, commaEvery3]
      have hsub : len - i = rest.length + 1 := by
        simp only [List.length_cons] at hlen
        omega
      rw [hsub]
      have ih := insertCommasAux_eq_commaEvery3 rest len (i + 1)
        (by omega) (by simp only [List.length_cons] at hlen; omega)
      rw [ih]
      by_cases hmod : (rest.length + 1) % 3 = 0
      · rw [if_pos ⟨hi, hmod⟩, if_pos hmod]
      · rw [if_neg (fun hc => hmod hc.2), if_neg hmod]

theorem insertCommas_eq_groupThousands (s : List Char) :
    insertCommas s = groupThousands s := by
  cases s with
  | nil => rfl
  | cons ch rest =>
      rw [insertCommas, groupThousands, insertCommasAux]
      rw [if_neg (fun hc => absurd hc.1 (by omega))]
      rw [insertCommasAux_eq_commaEvery3 rest (ch :: rest).length 1
        (by omega) (by simp only [List.length_cons]; omega)]
      rfl

/-! ### Supporting lemmas: decimal decomposition -/

/-- Splitting the digit string of `n` at `D` places from the right yields
the digit string of `n / 10^D` and the `D`-digit zero-padded rendering of
`n mod 10^D`. -/
theorem natToString_decompose (n D : Nat)
    (hD : D < (natToString n).length) :
    natToString n =
      natToString (n / 10 ^ D) ++
        (List.replicate (D - (digitChars (n % 10 ^ D)).length) '0' ++
          digitChars (n % 10 ^ D)) ∧
    (natToString (n / 10 ^ D)).length = (natToString n).length - D ∧
    (List.replicate (D - (digitChars (n % 10 ^ D)).length) '0' ++
        digitChars (n % 10 ^ D)).length = D := by
  rcases Nat.eq_zero_or_pos D with rfl | hD1
  · simp [digitChars, Nat.mod_one, digitCharsAux]
  have hn : n ≠ 0 := by
    intro h
    subst h
    simp [natToString] at hD
    omega
  have hlen_n : (natToString n).length = (Nat.digits 10 n).length :=
    length_natToString_of_ne_zero hn
  have hpow_pos : 0 < 10 ^ D := Nat.pos_pow_of_pos D (by norm_num)
  have hpow_le : 10 ^ D ≤ n := by
    have hdl := Nat.digits_len 10 n (by norm_num) hn
    have hlog : D ≤ Nat.log 10 n := by omega
    calc 10 ^ D ≤ 10 ^ Nat.log 10 n :=
          Nat.pow_le_pow_right (by norm_num) hlog
      _ ≤ n := Nat.pow_log_le_self 10 hn
  have hq_pos : 0 < n / 10 ^ D := Nat.div_pos hpow_le hpow_pos
  have hq_ne : n / 10 ^ D ≠ 0 := Nat.pos_iff_ne_zero.mp hq_pos
  have hr_lt : n % 10 ^ D < 10 ^ D := Nat.mod_lt n hpow_pos
  have hr_len : (Nat.digits 10 (n % 10 ^ D)).length ≤ D := by
    rcases Nat.eq_zero_or_pos (n % 10 ^ D) with hr0 | hrpos
    · simp [hr0]
    · have hrd := Nat.digits_len 10 (n % 10 ^ D) (by norm_num)
        (Nat.pos_iff_ne_zero.mp hrpos)
      have hlog := Nat.log_lt_of_lt_pow (Nat.pos_iff_ne_zero.mp hrpos) hr_lt
      omega
  have hkey := @Nat.digits_append_zeroes_append_digits 10
    (D - (Nat.digits 10 (n % 10 ^ D)).length) (n / 10 ^ D) (n % 10 ^ D)
    (by norm_num) hq_pos
  have hexp : (Nat.digits 10 (n % 10 ^ D)).length +
      (D - (Nat.digits 10 (n % 10 ^ D)).length) = D := by omega
  rw [hexp, Nat.mod_add_div n (10 ^ D)] at hkey
  have hdigits : Nat.digits 10 n =
      Nat.digits 10 (n % 10 ^ D) ++
        List.replicate (D - (Nat.digits 10 (n % 10 ^ D)).length) 0 ++
        Nat.digits 10 (n / 10 ^ D) := hkey.symm
  have hchars : natToString n =
      natToString (n / 10 ^ D) ++
        (List.replicate (D - (digitChars (n % 10 ^ D)).length) '0' ++
          digitChars (n % 10 ^ D)) := by
    rw [natToString_of_ne_zero hn, natToString_of_ne_zero hq_ne,
      length_digitChars, digitChars_eq n, digitChars_eq (n / 10 ^ D),
      digitChars_eq (n % 10 ^ D), hdigits]
    simp [List.map_append, List.reverse_append, List.map_replicate,
      List.append_assoc, Nat.digitChar]
  have hfrac_len : (List.replicate
        (D - (digitChars (n % 10 ^ D)).length) '0' ++
      digitChars (n % 10 ^ D)).length = D := by
    rw [List.length_append, List.length_replicate, length_digitChars]
    omega
  refine ⟨hchars, ?_, hfrac_len⟩
  have h1 : (natToString n).length =
      (natToString (n / 10 ^ D)).length +
        ((List.replicate (D - (digitChars (n % 10 ^ D)).length) '0' ++
          digitChars (n % 10 ^ D)).length) := by
    rw [hchars, List.length_append]
  omega

/-! ### Claim theorems: display_balance -/

/-- Counterexample for C7: at raw amount 1 and 0 decimals the code renders
"1." — a spurious trailing decimal point — while the decimal value 1 with
zero digits after the decimal point renders as "1". -/
theorem display_balance_d0_counterexample :
    display_balance 1 0 = ['1', '.'] ∧
    specBalanceRendering 1 0 = ['1'] ∧
    display_balance 1 0 ≠ specBalanceRendering 1 0 := by
  refine ⟨?_, ?_, ?_⟩ <;> decide

/-- **C7 (amended).** For every raw amount and decimals `D ≥ 1`,
`display_balance` renders exactly the decimal value `A / 10^D` with exactly
`D` digits after the decimal point and comma thousands separators grouping
the integer part every three digits; for `D = 0` the rendered string is the
grouped integer value followed by a spurious trailing decimal point. -/
theorem display_balance_spec (amount decimals : Nat)
    (hD : 1 ≤ decimals) :
    display_balance amount decimals = specBalanceRendering amount decimals ∧
    display_balance amount 0 = specBalanceRendering amount 0 ++ ['.'] := by
  constructor
  · rw [display_balance, specBalanceRendering,
      if_neg (show ¬decimals = 0 by omega)]
    by_cases hcmp : decimals < (natToString amount).length
    · rw [if_pos hcmp]
      obtain ⟨hdec, hlen, hfrac⟩ := natToString_decompose amount decimals hcmp
      have htake : (natToString amount).take
          ((natToString amount).length - decimals) =
          natToString (amount / 10 ^ decimals) := by
        rw [hdec, List.length_append, hfrac, Nat.add_sub_cancel]
        exact List.take_left _ _
      have hdrop : (natToString amount).drop
          ((natToString amount).length - decimals) =
          List.replicate
              (decimals - (digitChars (amount % 10 ^ decimals)).length) '0' ++
            digitChars (amount % 10 ^ decimals) := by
        rw [hdec, List.length_append, hfrac, Nat.add_sub_cancel]
        exact List.drop_left _ _
      rw [htake, hdrop, insertCommas_eq_groupThousands]
    · rw [if_neg hcmp]
      push_neg at hcmp
      have hlt : amount < 10 ^ decimals :=
        lt_of_lt_of_le (lt_pow_length_natToString amount)
          (Nat.pow_le_pow_right (by norm_num) hcmp)
      rw [Nat.div_eq_of_lt hlt, Nat.mod_eq_of_lt hlt]
      rcases Nat.eq_zero_or_pos amount with rfl | hpos
      · have h0 : natToString 0 = ['0'] := rfl
        have hd0 : digitChars 0 = [] := rfl
        rw [h0, hd0]
        have hrep : List.replicate (decimals - 1) '0' ++ ['0'] =
            List.replicate decimals '0' := by
          have hdd : decimals = (decimals - 1) + 1 := by omega
          conv_rhs => rw [hdd, List.replicate_succ']
        simp only [List.length_cons, List.length_nil, List.length_replicate,
          Nat.sub_zero, List.append_nil, groupThousands, commaEvery3]
        rw [← hrep]
        rfl
      · have hne := Nat.pos_iff_ne_zero.mp hpos
        have hgz : groupThousands (natToString 0) = ['0'] := rfl
        rw [hgz, natToString_of_ne_zero hne]
        rfl
  · rw [display_balance, specBalanceRendering,
      if_pos (length_natToString_pos amount)]
    rw [Nat.sub_zero, List.take_length, List.drop_length,
      insertCommas_eq_groupThousands, pow_zero, Nat.div_one]
    rw [if_pos rfl]

/-- Witness for C7 (amended) at the claim's own example: raw amount
1234567890 with 9 decimals renders as "1.234567890". -/
theorem display_balance_spec_witness :
    1 ≤ 9 ∧
    display_balance 1234567890 9 = specBalanceRendering 1234567890 9 ∧
    display_balance 1234567890 9 =
      ['1', '.', '2', '3', '4', '5', '6', '7', '8', '9', '0'] :=
  ⟨by decide, (display_balance_spec 1234567890 9 (by decide)).1, by decide⟩

end Sol
